import Mathlib

/-!
Verification of the custom all-reduce communicator surface of
`sgl-kernel/csrc/common_extension_musa.cc` and of the all-reduce engine it
registers.

The repository source available here is the operator-registration file
`common_extension_musa.cc`.  Its `TORCH_LIBRARY_EXPAND(sgl_kernel, m)` block is
embedded below as `sglKernelLibrary`, a list of registered operators indexed by
the build flag `USE_MUSA`.  The all-reduce engine itself (`csrc/allreduce`) is
not part of the provided sources, so its behaviour is modelled from the design
specification (each such definition carries a doc comment starting with
`Modelled from the spec:`).
-/

/-! ## Part 1: the operator-registration surface (from the source file) -/

/-- Argument and return types appearing in the operator schema strings of
`common_extension_musa.cc` (`int[]`, `Tensor`, `Tensor!`, `Tensor?`, `int`,
`bool`). -/
inductive ArgTy where
  | intArr
  | tensor
  | mutTensor
  | optTensor
  | int
  | bool
  deriving DecidableEq, Repr

/-- An explicit operator schema: argument types and return type
(`none` meaning the unit return `()`). -/
structure OpSchema where
  args : List ArgTy
  ret : Option ArgTy
  deriving DecidableEq, Repr

/-- The component a registration belongs to, following the section comments of
the source file (`From csrc/activation`, `From csrc/allreduce`, `From
csrc/moe`, `From csrc/speculative`, `From XGrammar`). -/
inductive Component where
  | activation
  | allreduce
  | moe
  | speculative
  | xgrammar
  deriving DecidableEq, Repr

/-- One `m.def` registration in `TORCH_LIBRARY_EXPAND(sgl_kernel, m)`.
`schema := none` corresponds to the `m.def("name", &fn)` form whose schema is
inferred from the C++ function; `schema := some s` corresponds to the
`m.def("name(...) -> ...")` / `m.impl` form with the explicit schema `s`. -/
structure OpReg where
  name : String
  component : Component
  schema : Option OpSchema
  deriving DecidableEq, Repr

/-- The operator registrations of `TORCH_LIBRARY_EXPAND(sgl_kernel, m)` in
`common_extension_musa.cc`, in file order, as a function of whether the build
defines `USE_MUSA`.

The four activation registrations (`silu_and_mul`, `gelu_tanh_and_mul`,
`gelu_and_mul`, `gelu_quick`, source lines 24-37) are commented out in the
source and therefore do not appear in the list.  The two speculative operators
(lines 70-86) are guarded by `#if !defined(USE_MUSA)`. -/
def sglKernelLibrary (useMusa : Bool) : List OpReg :=
  [ { name := "get_graph_buffer_ipc_meta", component := .allreduce, schema := none },
    { name := "register_graph_buffers", component := .allreduce, schema := none },
    { name := "dispose", component := .allreduce, schema := none },
    { name := "meta_size", component := .allreduce, schema := none },
    { name := "register_buffer", component := .allreduce, schema := none },
    { name := "init_custom_ar", component := .allreduce,
      schema := some { args := [.intArr, .tensor, .int, .bool], ret := some .int } },
    { name := "all_reduce", component := .allreduce,
      schema := some { args := [.int, .tensor, .mutTensor, .int, .int], ret := none } },
    { name := "moe_align_block_size", component := .moe,
      schema := some { args := [.tensor, .int, .int, .mutTensor, .mutTensor, .mutTensor,
                                .mutTensor, .bool], ret := none } },
    { name := "topk_softmax", component := .moe,
      schema := some { args := [.mutTensor, .mutTensor, .tensor, .bool], ret := none } } ]
  ++ (if useMusa then [] else
  [ { name := "verify_tree_greedy", component := .speculative,
      schema := some { args := [.mutTensor, .mutTensor, .mutTensor, .tensor, .tensor,
                                .tensor, .tensor, .tensor, .int], ret := none } },
    { name := "build_tree_kernel_efficient", component := .speculative,
      schema := some { args := [.tensor, .tensor, .tensor, .mutTensor, .mutTensor,
                                .mutTensor, .mutTensor, .mutTensor, .int, .int, .int,
                                .int], ret := none } } ])
  ++ [ { name := "apply_token_bitmask_inplace_cuda", component := .xgrammar,
         schema := some { args := [.tensor, .tensor, .optTensor], ret := none } } ]

/-- Names of the registered operators, in file order. -/
def registeredNames (useMusa : Bool) : List String :=
  (sglKernelLibrary useMusa).map (fun o => o.name)

/-- The registrations belonging to the all-reduce communicator component. -/
def communicatorOps (useMusa : Bool) : List OpReg :=
  (sglKernelLibrary useMusa).filter (fun o => o.component == .allreduce)

/-- Look up a registered operator by name. -/
def findOp (useMusa : Bool) (s : String) : Option OpReg :=
  (sglKernelLibrary useMusa).find? (fun o => o.name == s)

/-! ## Part 2: the all-reduce engine, modelled from the specification

The implementation files of `csrc/allreduce` are not among the provided
sources; the definitions below are modelled from the design specification of
the custom collective-communication engine. -/

/-- Modelled from the spec: the error taxonomy of section 7 (initialization,
scratch sizing, buffer registration, peer loss, use after dispose, graph-epoch
mismatch). -/
inductive ArError where
  | InitializationError
  | InsufficientScratchError
  | UnregisteredBufferError
  | PeerUnavailableError
  | UseAfterDisposeError
  | EpochMismatchError
  deriving DecidableEq, Repr

/-- Device memory, addressed by natural numbers; each address holds a buffer of
integer elements (the reduction is a plain elementwise sum, so elements are
modelled as integers). -/
def Mem : Type := Nat → List Int

/-- Pointwise write of one buffer into memory. -/
def writeMem (m : Mem) (a : Nat) (v : List Int) : Mem :=
  fun x => if x = a then v else m x

/-- Write a batch of (address, buffer) pairs into memory, in order. -/
def writeOuts (m : Mem) (prs : List (Nat × List Int)) : Mem :=
  prs.foldl (fun mm p => writeMem mm p.1 p.2) m

/-- The all-zero buffer of a given element length. -/
def zeroVec (L : Nat) : List Int :=
  List.replicate L 0

/-- Elementwise sum of two buffers. -/
def addVec (a b : List Int) : List Int :=
  List.zipWith (fun x y => x + y) a b

/-- Elementwise sum of a list of buffers of element length `L`. -/
def sumVecs (L : Nat) (bufs : List (List Int)) : List Int :=
  bufs.foldl addVec (zeroVec L)

/-- Modelled from the spec: a communicator (section 3).  It owns the rank
index, world size, the static full-connectivity flag, the rank-data record
(a fixed per-rank layout plus barrier signalling flags, the latter represented
by a flag counter bumped at each barrier), the buffer registration table, the
mapped peer handles, and the graph-capture state (captured buffer addresses,
the capture epoch, and the mappings imported from peers). -/
structure Communicator where
  worldSize : Nat
  rank : Nat
  fullNvlink : Bool
  rankDataLayout : List Nat
  flagCounter : Nat
  regTable : List (Nat × Nat)
  peerHandles : List Nat
  graphBuffers : List Nat
  graphEpoch : Nat
  graphMappings : List Nat
  deriving DecidableEq, Repr

/-- Modelled from the spec: host-side engine state, a table from opaque integer
handles to live communicators plus the next fresh handle. -/
structure EngineState where
  comms : List (Nat × Communicator)
  nextHandle : Nat
  deriving DecidableEq, Repr

/-- Look up a live communicator by handle. -/
def lookupComm (st : EngineState) (h : Nat) : Option Communicator :=
  (st.comms.find? (fun p => p.1 == h)).map (fun p => p.2)

/-- Replace the communicator stored under handle `h`. -/
def updateComm (st : EngineState) (h : Nat) (c : Communicator) : EngineState :=
  { st with comms := st.comms.map (fun p => if p.1 = h then (h, c) else p) }

/-- Modelled from the spec: `meta_size`, a pure function of the world size and
the rank-data layout (one pointer-sized slot and one flag slot per rank). -/
def meta_size (worldSize : Nat) : Nat :=
  16 * worldSize

/-- Modelled from the spec: `init_custom_ar(peer_ipc_descriptors, rank_data,
rank, full_nvlink) -> handle`.  Requires one descriptor per peer (their count
is the world size), `rank` within range, and a rank-data region of at least
`meta_size` bytes; otherwise fails with `InitializationError`.  On success the
descriptors are mapped as peer handles, a fresh communicator is stored, and its
opaque integer handle is returned. -/
def init_custom_ar (st : EngineState) (descriptors : List Nat)
    (rankDataSize : Nat) (rank : Nat) (fullNvlink : Bool) :
    Except ArError (EngineState × Nat) :=
  let n := descriptors.length
  if rank < n ∧ meta_size n ≤ rankDataSize then
    let c : Communicator :=
      { worldSize := n, rank := rank, fullNvlink := fullNvlink,
        rankDataLayout := List.range n, flagCounter := 0, regTable := [],
        peerHandles := descriptors, graphBuffers := [], graphEpoch := 0,
        graphMappings := [] }
    .ok ({ comms := st.comms ++ [(st.nextHandle, c)],
           nextHandle := st.nextHandle + 1 }, st.nextHandle)
  else
    .error .InitializationError

/-- Modelled from the spec: `dispose(handle)` removes the handle's communicator
from the engine state, invalidating the handle. -/
def dispose (st : EngineState) (h : Nat) : EngineState :=
  { st with comms := st.comms.filter (fun p => p.1 != h) }

/-- Modelled from the spec: `register_buffer(handle, buffer)` records an
(address, size) pair in the registration table, overwriting any prior
registration of the same address. -/
def register_buffer (st : EngineState) (h : Nat) (addr size : Nat) :
    Option ArError × EngineState :=
  match lookupComm st h with
  | none => (some .UseAfterDisposeError, st)
  | some c =>
    (none, updateComm st h
      { c with regTable := (addr, size) :: c.regTable.filter (fun p => p.1 != addr) })

/-- Whether an address appears in the communicator's registration table. -/
def isRegistered (c : Communicator) (a : Nat) : Bool :=
  c.regTable.any (fun p => p.1 == a)

/-- Modelled from the spec: the minimum scratch requirement of the selected
strategy for buffers of element length `L`: the one-shot strategy stages every
rank's chunk, the ring strategy stages a single segment. -/
def requiredScratch (c : Communicator) (L : Nat) : Nat :=
  if c.fullNvlink then c.worldSize * L else L

/-- Modelled from the spec: phase one of the one-shot strategy.  Each rank
listed in `sched` (the order in which ranks reach the barrier) writes its own
chunk into its exclusive slot of the shared staging area.  Ranks own disjoint
slots, so the arrival order is scheduling nondeterminism. -/
def stageWrites (inputs : List (List Int)) (sched : List Nat) (init : Mem) : Mem :=
  sched.foldl (fun store r => writeMem store r (inputs.getD r [])) init

/-- Modelled from the spec: the one-shot strategy.  Every rank writes its chunk
and signals (in arrival order `sched`), the single barrier orders all writes
before all reads, then every rank reads all peers' chunks in fixed rank order
and sums locally; all ranks obtain the same snapshot, hence the same output. -/
def oneShotRun (n L : Nat) (inputs : List (List Int)) (sched : List Nat) :
    List (List Int) :=
  let store := stageWrites inputs sched (fun _ => zeroVec L)
  let snapshot := (List.range n).map store
  List.replicate n (snapshot.foldl addVec (zeroVec L))

/-- State threaded through the ring strategy: per-rank accumulators, the
per-rank value currently being passed along the ring, and the number of barrier
phases executed so far. -/
structure RingSt where
  acc : List (List Int)
  carry : List (List Int)
  barriers : Nat
  deriving DecidableEq, Repr

/-- Modelled from the spec: one ring hop.  Each rank receives the carried
partial of its ring neighbour, adds it into its accumulator, and passes it on;
a barrier separates consecutive hops, so the barrier count rises by one. -/
def ringHop (st : RingSt) : RingSt :=
  let n := st.acc.length
  let recv := fun r => st.carry.getD ((r + 1) % n) []
  { acc := (List.range n).map (fun r => addVec (st.acc.getD r []) (recv r)),
    carry := (List.range n).map recv,
    barriers := st.barriers + 1 }

/-- Iterate `k` ring hops. -/
def ringIter : Nat → RingSt → RingSt
  | 0, st => st
  | k + 1, st => ringIter k (ringHop st)

/-- Modelled from the spec: the ring strategy runs `worldSize - 1` hops, with a
barrier between consecutive passes; returns the per-rank results and the
number of barrier phases executed. -/
def ringExec (n : Nat) (inputs : List (List Int)) : List (List Int) × Nat :=
  let fin := ringIter (n - 1) { acc := inputs, carry := inputs, barriers := 0 }
  (fin.acc, fin.barriers)

/-- Modelled from the spec: the reduction dispatch on one communicator.  It
checks the scratch size against the strategy's minimum, checks that the scratch
buffer is registered, then runs the strategy selected by the static
`fullNvlink` flag; barrier signalling bumps the flag counter, once per barrier
phase.  Returns the updated communicator, the per-rank outputs, and the number
of barrier phases. -/
def allReduceCore (c : Communicator) (inputs : List (List Int))
    (scratchAddr scratchSize : Nat) :
    Except ArError (Communicator × List (List Int) × Nat) :=
  let L := (inputs.headD []).length
  if scratchSize < requiredScratch c L then
    .error .InsufficientScratchError
  else if isRegistered c scratchAddr then
    if c.fullNvlink then
      .ok ({ c with flagCounter := c.flagCounter + 1 },
           oneShotRun c.worldSize L inputs (List.range c.worldSize), 1)
    else
      let r := ringExec c.worldSize inputs
      .ok ({ c with flagCounter := c.flagCounter + r.2 }, r.1, r.2)
  else
    .error .UnregisteredBufferError

/-- Modelled from the spec: `all_reduce(handle, input, output, scratch,
scratch_size)`.  The per-rank input buffers are read from memory at `inAddrs`,
the per-rank results are written to memory at `outAddrs`; on any failure the
engine state and memory are returned untouched. -/
def all_reduce (st : EngineState) (mem : Mem) (h : Nat)
    (inAddrs outAddrs : List Nat) (scratchAddr scratchSize : Nat) :
    Option ArError × EngineState × Mem :=
  match lookupComm st h with
  | none => (some .UseAfterDisposeError, st, mem)
  | some c =>
    match allReduceCore c (inAddrs.map mem) scratchAddr scratchSize with
    | .error e => (some e, st, mem)
    | .ok (c2, outs, _) =>
      (none, updateComm st h c2, writeOuts mem (outAddrs.zip outs))

/-- Modelled from the spec: `get_graph_buffer_ipc_meta(handle)` exports, for
each buffer captured during the current graph-capture epoch, an opaque
descriptor blob; the blob is modelled as the exported address tagged with the
capture epoch. -/
def get_graph_buffer_ipc_meta (st : EngineState) (h : Nat) :
    Except ArError (List (Nat × Nat)) :=
  match lookupComm st h with
  | none => .error .UseAfterDisposeError
  | some c => .ok (c.graphBuffers.map (fun a => (a, c.graphEpoch)))

/-- Import one peer descriptor: the mapping succeeds only when the
descriptor's epoch tag matches the importing communicator's current epoch. -/
def importDesc (epoch : Nat) (d : Nat × Nat) : Except ArError Nat :=
  if d.2 = epoch then .ok d.1 else .error .EpochMismatchError

/-- Modelled from the spec: `register_graph_buffers(handle, metadata)` imports
the descriptors produced by peers for the current capture epoch, establishing
the peer-readable mappings used by later replays. -/
def register_graph_buffers (st : EngineState) (h : Nat)
    (metas : List (Nat × Nat)) : Option ArError × EngineState :=
  match lookupComm st h with
  | none => (some .UseAfterDisposeError, st)
  | some c =>
    match metas.mapM (importDesc c.graphEpoch) with
    | .error e => (some e, st)
    | .ok addrs => (none, updateComm st h { c with graphMappings := addrs })

/-- Modelled from the spec: a replayed all-reduce.  Replay re-runs the strategy
chosen at construction (no host-side re-selection) over the buffers reachable
through the imported graph mappings; it uses the pre-registered scratch, so no
host-side checks are re-executed. -/
def replay_all_reduce (c : Communicator) (mem : Mem) : List (List Int) :=
  let inputs := c.graphMappings.map mem
  let L := (inputs.headD []).length
  if c.fullNvlink then
    oneShotRun c.worldSize L inputs (List.range c.worldSize)
  else
    (ringExec c.worldSize inputs).1

/-- The number of barrier phases of a dispatched all-reduce, when it succeeds. -/
def arBarriers (c : Communicator) (inputs : List (List Int))
    (scratchAddr scratchSize : Nat) : Option Nat :=
  (allReduceCore c inputs scratchAddr scratchSize).toOption.map
    (fun r => r.2.2)

/-- The per-rank outputs of a dispatched all-reduce, when it succeeds. -/
def arOutputs (c : Communicator) (inputs : List (List Int))
    (scratchAddr scratchSize : Nat) : Option (List (List Int)) :=
  (allReduceCore c inputs scratchAddr scratchSize).toOption.map
    (fun r => r.2.1)

/-! ### Concrete fixtures used by the witness theorems -/

/-- A two-rank fully-connected communicator with a registered scratch buffer at
address 7 and graph-captured buffers at addresses 1 and 2 (epoch 5). -/
def cOne : Communicator :=
  { worldSize := 2, rank := 0, fullNvlink := true, rankDataLayout := [0, 1],
    flagCounter := 0, regTable := [(7, 64)], peerHandles := [11, 12],
    graphBuffers := [1, 2], graphEpoch := 5, graphMappings := [] }

/-- A four-rank partially-connected (ring) communicator with a registered
scratch buffer at address 7. -/
def cRing : Communicator :=
  { worldSize := 4, rank := 0, fullNvlink := false, rankDataLayout := [0, 1, 2, 3],
    flagCounter := 0, regTable := [(7, 64)], peerHandles := [11, 12, 13, 14],
    graphBuffers := [], graphEpoch := 0, graphMappings := [] }

/-- An engine state holding `cOne` under handle 0 and `cRing` under handle 1. -/
def stEx : EngineState :=
  { comms := [(0, cOne), (1, cRing)], nextHandle := 2 }

/-- A concrete memory: buffers `[1, 2]` at address 1 and `[3, 4]` at address 2. -/
def memEx : Mem :=
  fun a => if a = 1 then [1, 2] else if a = 2 then [3, 4] else []

/-! ## Part 3: supporting lemmas -/

theorem find_filter_ne (l : List (Nat × Communicator)) (h : Nat) :
    (l.filter (fun p => p.1 != h)).find? (fun p => p.1 == h) = none := by
  induction l with
  | nil => rfl
  | cons p l ih =>
      by_cases hp : p.1 = h
      · simp [List.filter_cons, hp, ih]
      · simp [List.filter_cons, hp, List.find?_cons, ih]

theorem lookup_dispose (st : EngineState) (h : Nat) :
    lookupComm (dispose st h) h = none := by
  simp [lookupComm, dispose, find_filter_ne]

theorem find_update_self (l : List (Nat × Communicator)) (h : Nat)
    (c2 : Communicator) (pr : Nat × Communicator)
    (hl : l.find? (fun p => p.1 == h) = some pr) :
    (l.map (fun p => if p.1 = h then (h, c2) else p)).find?
      (fun p => p.1 == h) = some (h, c2) := by
  induction l with
  | nil => simp at hl
  | cons p l ih =>
      by_cases hp : p.1 = h
      · simp [List.find?_cons, hp]
      · have hb : (p.1 == h) = false := by simp [hp]
        simp only [List.find?_cons, hb] at hl
        simp only [List.map_cons, if_neg hp, List.find?_cons, hb]
        exact ih hl

theorem find_update_ne (l : List (Nat × Communicator)) (h h2 : Nat)
    (c2 : Communicator) (hne : h2 ≠ h) :
    (l.map (fun p => if p.1 = h then (h, c2) else p)).find?
      (fun p => p.1 == h2) = l.find? (fun p => p.1 == h2) := by
  induction l with
  | nil => rfl
  | cons p l ih =>
      by_cases hp : p.1 = h
      · have : (h == h2) = false := by simp [Ne.symm hne]
        simp [List.find?_cons, hp, this, ih]
      · simp only [List.map_cons, if_neg hp, List.find?_cons]
        by_cases hq : p.1 = h2
        · simp [hq]
        · simp [hq, ih]

theorem lookup_update_self (st : EngineState) (h : Nat) (c c2 : Communicator)
    (h1 : lookupComm st h = some c) :
    lookupComm (updateComm st h c2) h = some c2 := by
  unfold lookupComm at h1 ⊢
  cases hf : st.comms.find? (fun p => p.1 == h) with
  | none => simp [hf] at h1
  | some pr =>
      simp [updateComm, find_update_self st.comms h c2 pr hf]

theorem lookup_update_ne (st : EngineState) (h h2 : Nat) (c2 : Communicator)
    (hne : h2 ≠ h) :
    lookupComm (updateComm st h c2) h2 = lookupComm st h2 := by
  simp [lookupComm, updateComm, find_update_ne st.comms h h2 c2 hne]

theorem mem_map_fst_zip (a : Nat) (l1 : List Nat) (l2 : List (List Int))
    (ha : a ∈ (l1.zip l2).map Prod.fst) : a ∈ l1 := by
  induction l1 generalizing l2 with
  | nil => simp [List.zip] at ha
  | cons x l1 ih =>
      cases l2 with
      | nil => simp [List.zip] at ha
      | cons y l2 =>
          simp only [List.zip_cons_cons, List.map_cons, List.mem_cons] at ha
          rcases ha with ha | ha
          · simp [ha]
          · exact List.mem_cons_of_mem x (ih l2 ha)

theorem writeOuts_frame (prs : List (Nat × List Int)) (m : Mem) (a : Nat)
    (ha : a ∉ prs.map Prod.fst) : writeOuts m prs a = m a := by
  induction prs generalizing m with
  | nil => rfl
  | cons p prs ih =>
      simp only [List.map_cons, List.mem_cons, not_or] at ha
      simp only [writeOuts, List.foldl_cons]
      have := ih (writeMem m p.1 p.2) ha.2
      simp only [writeOuts] at this
      rw [this, writeMem, if_neg ha.1]

theorem stage_notmem (inputs : List (List Int)) (sched : List Nat) (init : Mem)
    (r : Nat) (hr : r ∉ sched) :
    stageWrites inputs sched init r = init r := by
  induction sched generalizing init with
  | nil => rfl
  | cons a s ih =>
      simp only [List.mem_cons, not_or] at hr
      simp only [stageWrites, List.foldl_cons]
      have := ih (writeMem init a (inputs.getD a [])) hr.2
      simp only [stageWrites] at this
      rw [this, writeMem, if_neg hr.1]

theorem stage_mem (inputs : List (List Int)) (sched : List Nat) (init : Mem)
    (r : Nat) (hr : r ∈ sched) :
    stageWrites inputs sched init r = inputs.getD r [] := by
  induction sched generalizing init with
  | nil => simp at hr
  | cons a s ih =>
      simp only [stageWrites, List.foldl_cons]
      by_cases hs : r ∈ s
      · have := ih (writeMem init a (inputs.getD a [])) hs
        simpa only [stageWrites] using this
      · have hra : r = a := by
          rcases List.mem_cons.mp hr with h | h
          · exact h
          · exact absurd h hs
        have := stage_notmem inputs s (writeMem init a (inputs.getD a [])) r hs
        simp only [stageWrites] at this ⊢
        rw [this, writeMem, if_pos hra, hra]

theorem range_map_stage (n L : Nat) (inputs : List (List Int)) (sched : List Nat)
    (hcov : ∀ r, r < n → r ∈ sched) :
    (List.range n).map (stageWrites inputs sched (fun _ => zeroVec L))
      = (List.range n).map (fun r => inputs.getD r []) := by
  apply List.map_congr_left
  intro r hr
  exact stage_mem inputs sched _ r (hcov r (List.mem_range.mp hr))

theorem map_getD_range (l : List (List Int)) :
    (List.range l.length).map (fun i => l.getD i []) = l := by
  induction l with
  | nil => rfl
  | cons a l ih =>
      simp only [List.length_cons, List.range_succ_eq_map, List.map_cons,
        List.map_map, List.getD_cons_zero]
      have : ((fun i => (a :: l).getD i []) ∘ Nat.succ) = fun i => l.getD i [] := by
        funext i
        simp [Function.comp, List.getD_cons_succ]
      rw [this, ih]

theorem addVec_replicate (L : Nat) (a b : Int) :
    addVec (List.replicate L a) (List.replicate L b) = List.replicate L (a + b) := by
  induction L with
  | zero => rfl
  | succ k ih =>
      simp only [List.replicate_succ, addVec, List.zipWith_cons_cons]
      simp only [addVec] at ih
      rw [ih]

theorem foldl_addVec_ones (n L : Nat) (a : Int) :
    (List.replicate n (List.replicate L (1 : Int))).foldl addVec (List.replicate L a)
      = List.replicate L (a + n) := by
  induction n generalizing a with
  | zero => simp
  | succ k ih =>
      simp only [List.replicate_succ, List.foldl_cons, addVec_replicate]
      rw [ih (a + 1)]
      congr 1
      push_cast
      ring

theorem ringIter_barriers (k : Nat) (st : RingSt) :
    (ringIter k st).barriers = st.barriers + k := by
  induction k generalizing st with
  | zero => rfl
  | succ k ih =>
      rw [show ringIter (k + 1) st = ringIter k (ringHop st) from rfl, ih (ringHop st)]
      simp only [ringHop]
      omega

theorem allReduceCore_ok (c : Communicator) (inputs : List (List Int))
    (sa ss : Nat)
    (h2 : requiredScratch c ((inputs.headD []).length) ≤ ss)
    (h3 : isRegistered c sa = true) :
    allReduceCore c inputs sa ss =
      if c.fullNvlink then
        .ok ({ c with flagCounter := c.flagCounter + 1 },
             oneShotRun c.worldSize ((inputs.headD []).length) inputs
               (List.range c.worldSize), 1)
      else
        .ok ({ c with flagCounter := c.flagCounter + (ringExec c.worldSize inputs).2 },
             (ringExec c.worldSize inputs).1, (ringExec c.worldSize inputs).2) := by
  unfold allReduceCore
  rw [if_neg (Nat.not_lt.mpr h2), if_pos h3]

theorem importAll_export (epoch : Nat) (addrs : List Nat) :
    (addrs.map (fun a => (a, epoch))).mapM (importDesc epoch) = .ok addrs := by
  induction addrs with
  | nil => rfl
  | cons a l ih =>
      simp only [List.map_cons, List.mapM_cons, ih, importDesc, if_pos rfl]
      rfl

theorem contains_false_not_mem (l : List Nat) (a : Nat)
    (h : l.contains a = false) : a ∉ l := by
  simp at h; exact h

/-! ## Part 4: the claims -/

/-- Claim C1: the communicator interface registered under `From csrc/allreduce`
exposes exactly the seven operations `meta_size`, `init_custom_ar`,
`register_buffer`, `get_graph_buffer_ipc_meta`, `register_graph_buffers`,
`all_reduce` and `dispose`, in either build configuration; `init_custom_ar`
takes a list of peer IPC descriptors (`int[]`), a rank-data tensor, an integer
rank and a boolean `full_nvlink`, and returns an opaque integer handle. -/
theorem C1_communicator_interface :
    ∀ u : Bool,
      (communicatorOps u).map (fun o => o.name) =
        ["get_graph_buffer_ipc_meta", "register_graph_buffers", "dispose",
         "meta_size", "register_buffer", "init_custom_ar", "all_reduce"]
    ∧ findOp u "init_custom_ar" =
        some { name := "init_custom_ar", component := .allreduce,
               schema := some { args := [.intArr, .tensor, .int, .bool],
                                ret := some .int } } := by
  intro u
  cases u <;> constructor <;> decide

/-- Claim C9, counterexample: the activation kernel `silu_and_mul` is not
registered in the `sgl_kernel` operator library in either build configuration
(its registration is commented out in `common_extension_musa.cc`), refuting the
claim that the activation kernels are registered alongside the all-reduce
operations. -/
theorem C9_counterexample :
    (registeredNames true).contains "silu_and_mul" = false
  ∧ (registeredNames false).contains "silu_and_mul" = false := by
  constructor <;> decide

/-- Claim C9, amended: in `common_extension_musa.cc` the four elementwise
activation kernels (`silu_and_mul`, `gelu_tanh_and_mul`, `gelu_and_mul`,
`gelu_quick`) are NOT registered in the `sgl_kernel` operator library — their
registrations are commented out — while the all-reduce operations are
registered; no registered operator belongs to the activation component, in
either build configuration. -/
theorem C9_no_activation_ops :
    ∀ u : Bool,
      (sglKernelLibrary u).filter (fun o => o.component == .activation) = []
    ∧ (registeredNames u).contains "silu_and_mul" = false
    ∧ (registeredNames u).contains "gelu_tanh_and_mul" = false
    ∧ (registeredNames u).contains "gelu_and_mul" = false
    ∧ (registeredNames u).contains "gelu_quick" = false
    ∧ (registeredNames u).contains "all_reduce" = true
    ∧ (registeredNames u).contains "init_custom_ar" = true := by
  intro u
  cases u <;> exact ⟨by decide, by decide, by decide, by decide, by decide,
    by decide, by decide⟩

/-- Claim C10: the speculative-decoding operators `verify_tree_greedy` and
`build_tree_kernel_efficient` are registered in the `sgl_kernel` operator
library exactly when the build does not define `USE_MUSA`, and the remaining
(non-speculative) operator registrations are identical across the two build
configurations. -/
theorem C10_speculative_registration :
    ∀ u : Bool,
      ((registeredNames u).contains "verify_tree_greedy" = !u)
    ∧ ((registeredNames u).contains "build_tree_kernel_efficient" = !u)
    ∧ ((sglKernelLibrary u).filter (fun o => !(o.component == .speculative))
        = (sglKernelLibrary false).filter (fun o => !(o.component == .speculative))) := by
  intro u
  cases u <;> exact ⟨by decide, by decide, by decide⟩

/-- Claim C4: the all-reduce is deterministic.  The only nondeterminism in the
one-shot strategy is the order in which ranks reach the barrier (each rank
writes its own exclusive staging slot); two runs of `oneShotRun` on the same
topology with bit-identical per-rank inputs produce bit-identical outputs for
any two complete write schedules. -/
theorem C4_deterministic (n L : Nat) (inputs : List (List Int))
    (s1 s2 : List Nat)
    (h1 : List.range n ⊆ s1) (h2 : List.range n ⊆ s2) :
    oneShotRun n L inputs s1 = oneShotRun n L inputs s2 := by
  simp only [oneShotRun]
  rw [range_map_stage n L inputs s1 (fun r hr => h1 (List.mem_range.mpr hr)),
      range_map_stage n L inputs s2 (fun r hr => h2 (List.mem_range.mpr hr))]

/-- Witness for C4: two runs over opposite arrival orders of two ranks give
bit-identical outputs. -/
theorem C4_deterministic_witness :
    List.range 2 ⊆ [0, 1] ∧ List.range 2 ⊆ [1, 0]
  ∧ oneShotRun 2 2 [[1, 2], [3, 4]] [0, 1] = oneShotRun 2 2 [[1, 2], [3, 4]] [1, 0] :=
  ⟨by decide, by decide,
   C4_deterministic 2 2 [[1, 2], [3, 4]] [0, 1] [1, 0] (by decide) (by decide)⟩

/-- Claim C7: a successfully dispatched all-reduce completes in exactly one
barrier phase on a `full_nvlink = true` communicator (one-shot strategy) and in
exactly `worldSize - 1` barrier phases on a `full_nvlink = false` communicator
(ring strategy). -/
theorem C7_barrier_phases (c : Communicator) (inputs : List (List Int))
    (sa ss : Nat)
    (h1 : requiredScratch c ((inputs.headD []).length) ≤ ss)
    (h2 : isRegistered c sa = true) :
    arBarriers c inputs sa ss = some (if c.fullNvlink then 1 else c.worldSize - 1) := by
  unfold arBarriers
  rw [allReduceCore_ok c inputs sa ss h1 h2]
  cases hb : c.fullNvlink <;> simp [hb, ringExec, ringIter_barriers, Except.toOption]

/-- Witness for C7: a four-rank ring communicator completes in
`worldSize - 1 = 3` barrier phases. -/
theorem C7_barrier_phases_witness :
    requiredScratch cRing (([[1], [2], [3], [4]] : List (List Int)).headD []).length ≤ 64
  ∧ isRegistered cRing 7 = true
  ∧ arBarriers cRing [[1], [2], [3], [4]] 7 64
      = some (if cRing.fullNvlink then 1 else cRing.worldSize - 1) :=
  ⟨by decide, by decide,
   C7_barrier_phases cRing [[1], [2], [3], [4]] 7 64 (by decide) (by decide)⟩

/-- Claim C5: after `dispose`, every subsequent operation on the disposed
handle (`all_reduce`, `register_buffer`, `get_graph_buffer_ipc_meta`,
`register_graph_buffers`) fails with `UseAfterDisposeError`, and with no other
error. -/
theorem C5_use_after_dispose (st : EngineState) (mem : Mem) (h : Nat)
    (inAddrs outAddrs : List Nat) (sa ss addr sz : Nat)
    (metas : List (Nat × Nat)) :
    (all_reduce (dispose st h) mem h inAddrs outAddrs sa ss).1
        = some .UseAfterDisposeError
  ∧ (register_buffer (dispose st h) h addr sz).1 = some .UseAfterDisposeError
  ∧ get_graph_buffer_ipc_meta (dispose st h) h = .error .UseAfterDisposeError
  ∧ (register_graph_buffers (dispose st h) h metas).1 = some .UseAfterDisposeError := by
  have hl := lookup_dispose st h
  refine ⟨?_, ?_, ?_, ?_⟩ <;>
    simp [all_reduce, register_buffer, get_graph_buffer_ipc_meta,
      register_graph_buffers, hl]

/-- Claim C6: an `all_reduce` call whose scratch buffer is smaller than the
minimum required by the selected strategy fails with
`InsufficientScratchError`, leaving the engine state and the whole memory —
in particular the output buffers — completely unchanged. -/
theorem C6_insufficient_scratch (st : EngineState) (mem : Mem) (h : Nat)
    (inAddrs outAddrs : List Nat) (sa ss : Nat) (c : Communicator)
    (h1 : lookupComm st h = some c)
    (h2 : ss < requiredScratch c (((inAddrs.map mem).headD []).length)) :
    all_reduce st mem h inAddrs outAddrs sa ss
      = (some .InsufficientScratchError, st, mem) := by
  have hcore : allReduceCore c (inAddrs.map mem) sa ss
      = .error .InsufficientScratchError := by
    simp only [allReduceCore]
    rw [if_pos h2]
  simp [all_reduce, h1, hcore]

/-- Witness for C6: a concrete undersized-scratch call fails with
`InsufficientScratchError` and returns state and memory untouched. -/
theorem C6_insufficient_scratch_witness :
    lookupComm stEx 0 = some cOne
  ∧ 0 < requiredScratch cOne (((([1, 2] : List Nat).map memEx).headD []).length)
  ∧ all_reduce stEx memEx 0 [1, 2] [3, 4] 7 0
      = (some .InsufficientScratchError, stEx, memEx) :=
  ⟨by decide, by decide,
   C6_insufficient_scratch stEx memEx 0 [1, 2] [3, 4] 7 0 cOne (by decide) (by decide)⟩

theorem oneShot_ones (n L : Nat) :
    oneShotRun n L (List.replicate n (List.replicate L (1 : Int))) (List.range n)
      = List.replicate n (List.replicate L (n : Int)) := by
  simp only [oneShotRun]
  rw [range_map_stage n L _ _ (fun r hr => List.mem_range.mpr hr)]
  have key : (List.range n).map
      (fun r => (List.replicate n (List.replicate L (1 : Int))).getD r [])
        = List.replicate n (List.replicate L (1 : Int)) := by
    have := map_getD_range (List.replicate n (List.replicate L (1 : Int)))
    simpa using this
  rw [key, show zeroVec L = List.replicate L (0 : Int) from rfl,
      foldl_addVec_ones n L 0]
  norm_num

/-- Claim C3: for `n ≥ 1` ranks with all-ones input buffers of length `L`, a
dispatched all-reduce on a fully-connected (`full_nvlink = true`) communicator
produces on every rank the identical output buffer whose every element equals
`n`. -/
theorem C3_all_ones (c : Communicator) (n L sa ss : Nat)
    (h0 : 1 ≤ n) (h1 : c.worldSize = n) (h2 : c.fullNvlink = true)
    (h3 : requiredScratch c L ≤ ss) (h4 : isRegistered c sa = true) :
    arOutputs c (List.replicate n (List.replicate L (1 : Int))) sa ss
      = some (List.replicate n (List.replicate L (n : Int))) := by
  have hlen : ((List.replicate n (List.replicate L (1 : Int))).headD []).length = L := by
    obtain ⟨m, rfl⟩ : ∃ m, n = m + 1 := ⟨n - 1, by omega⟩
    simp [List.replicate_succ]
  have hreq : requiredScratch c
      ((List.replicate n (List.replicate L (1 : Int))).headD []).length ≤ ss := by
    rw [hlen]; exact h3
  unfold arOutputs
  rw [allReduceCore_ok c _ sa ss hreq h4, if_pos h2]
  simp only [Except.toOption, Option.map_some]
  rw [hlen, h1, oneShot_ones n L]
  rfl

/-- Witness for C3: two ranks, all-ones buffers of length three, output
`[2, 2, 2]` on both ranks. -/
theorem C3_all_ones_witness :
    1 ≤ 2 ∧ cOne.worldSize = 2 ∧ cOne.fullNvlink = true
  ∧ requiredScratch cOne 3 ≤ 64 ∧ isRegistered cOne 7 = true
  ∧ arOutputs cOne (List.replicate 2 (List.replicate 3 (1 : Int))) 7 64
      = some (List.replicate 2 (List.replicate 3 (2 : Int))) :=
  ⟨by decide, by decide, by decide, by decide, by decide,
   C3_all_ones cOne 2 3 7 64 (by decide) (by decide) (by decide) (by decide) (by decide)⟩

/-- Claim C2: a successful `all_reduce` call (valid handle, sufficient
registered scratch) mutates only the output buffers: every memory address
outside the output list — in particular every input address — is unchanged, the
communicator's registration table, rank-data layout and peer handles are
unchanged, and every other handle's communicator is unchanged. -/
theorem C2_frame (st : EngineState) (mem : Mem) (h hOther : Nat)
    (inAddrs outAddrs : List Nat) (sa ss : Nat) (c : Communicator) (a : Nat)
    (h1 : lookupComm st h = some c)
    (h2 : requiredScratch c (((inAddrs.map mem).headD []).length) ≤ ss)
    (h3 : isRegistered c sa = true)
    (h4 : outAddrs.contains a = false)
    (h5 : hOther ≠ h) :
    (all_reduce st mem h inAddrs outAddrs sa ss).1 = none
  ∧ (all_reduce st mem h inAddrs outAddrs sa ss).2.2 a = mem a
  ∧ (lookupComm (all_reduce st mem h inAddrs outAddrs sa ss).2.1 h).map
      (fun c2 => (c2.regTable, c2.rankDataLayout, c2.peerHandles))
      = some (c.regTable, c.rankDataLayout, c.peerHandles)
  ∧ lookupComm (all_reduce st mem h inAddrs outAddrs sa ss).2.1 hOther
      = lookupComm st hOther := by
  have hna : a ∉ outAddrs := contains_false_not_mem outAddrs a h4
  have hcore := allReduceCore_ok c (inAddrs.map mem) sa ss h2 h3
  have hsucc : ∃ outs k, allReduceCore c (inAddrs.map mem) sa ss
      = .ok ({ c with flagCounter := c.flagCounter + k }, outs, k) := by
    rw [hcore]
    cases hb : c.fullNvlink
    · simp only [Bool.false_eq_true, if_false]
      exact ⟨_, _, rfl⟩
    · simp only [if_true]
      exact ⟨_, _, rfl⟩
  obtain ⟨outs, k, hsucc⟩ := hsucc
  simp only [all_reduce, h1, hsucc]
  refine ⟨by trivial, ?_, ?_, ?_⟩
  · apply writeOuts_frame
    intro hm
    exact hna (mem_map_fst_zip a outAddrs outs hm)
  · rw [lookup_update_self st h c _ h1]
    rfl
  · exact lookup_update_ne st h hOther _ h5

/-- Witness for C2: a concrete successful `all_reduce` leaves the input
address, the communicator's tables and the other handle untouched. -/
theorem C2_frame_witness :
    lookupComm stEx 0 = some cOne
  ∧ requiredScratch cOne ((((([1, 2] : List Nat)).map memEx).headD []).length) ≤ 64
  ∧ isRegistered cOne 7 = true
  ∧ ([3, 4] : List Nat).contains 1 = false
  ∧ (1 : Nat) ≠ 0
  ∧ ((all_reduce stEx memEx 0 [1, 2] [3, 4] 7 64).1 = none
     ∧ (all_reduce stEx memEx 0 [1, 2] [3, 4] 7 64).2.2 1 = memEx 1
     ∧ (lookupComm (all_reduce stEx memEx 0 [1, 2] [3, 4] 7 64).2.1 0).map
         (fun c2 => (c2.regTable, c2.rankDataLayout, c2.peerHandles))
         = some (cOne.regTable, cOne.rankDataLayout, cOne.peerHandles)
     ∧ lookupComm (all_reduce stEx memEx 0 [1, 2] [3, 4] 7 64).2.1 1
         = lookupComm stEx 1) :=
  ⟨by decide, by decide, by decide, by decide, by decide,
   C2_frame stEx memEx 0 1 [1, 2] [3, 4] 7 64 cOne 1
     (by decide) (by decide) (by decide) (by decide) (by decide)⟩

/-- Claim C8: round-trip of graph-capture metadata.  Registering, on a
communicator, exactly the metadata produced by `get_graph_buffer_ipc_meta` on
a peer of the same capture epoch succeeds and yields mappings under which the
replayed all-reduce produces the same per-rank outputs as the non-capture
dispatched all-reduce on the identical input data. -/
theorem C8_graph_roundtrip (st stp : EngineState) (h hp : Nat)
    (c cp : Communicator) (mem : Mem) (metas : List (Nat × Nat)) (sa ss : Nat)
    (h1 : lookupComm st h = some c)
    (h2 : lookupComm stp hp = some cp)
    (h3 : cp.graphEpoch = c.graphEpoch)
    (h4 : get_graph_buffer_ipc_meta stp hp = .ok metas)
    (h5 : requiredScratch c (((cp.graphBuffers.map mem).headD []).length) ≤ ss)
    (h6 : isRegistered c sa = true) :
    (register_graph_buffers st h metas).1 = none
  ∧ (lookupComm (register_graph_buffers st h metas).2 h).map
      (fun c2 => replay_all_reduce c2 mem)
      = arOutputs c (cp.graphBuffers.map mem) sa ss := by
  simp only [get_graph_buffer_ipc_meta, h2, Except.ok.injEq] at h4
  have hm : metas = cp.graphBuffers.map (fun a => (a, c.graphEpoch)) := by
    rw [← h3]
    exact h4.symm
  subst hm
  have himp := importAll_export c.graphEpoch cp.graphBuffers
  simp only [register_graph_buffers, h1, himp]
  refine ⟨by trivial, ?_⟩
  rw [lookup_update_self st h c _ h1]
  unfold replay_all_reduce arOutputs
  rw [allReduceCore_ok c _ sa ss h5 h6]
  cases hb : c.fullNvlink <;> simp [hb, Except.toOption]

/-- Witness for C8: the metadata exported by the fixture communicator's own
epoch round-trips, and the replayed all-reduce reproduces the direct result. -/
theorem C8_graph_roundtrip_witness :
    lookupComm stEx 0 = some cOne
  ∧ lookupComm stEx 0 = some cOne
  ∧ cOne.graphEpoch = cOne.graphEpoch
  ∧ get_graph_buffer_ipc_meta stEx 0 = .ok [(1, 5), (2, 5)]
  ∧ requiredScratch cOne (((cOne.graphBuffers.map memEx).headD []).length) ≤ 64
  ∧ isRegistered cOne 7 = true
  ∧ ((register_graph_buffers stEx 0 [(1, 5), (2, 5)]).1 = none
     ∧ (lookupComm (register_graph_buffers stEx 0 [(1, 5), (2, 5)]).2 0).map
         (fun c2 => replay_all_reduce c2 memEx)
         = arOutputs cOne (cOne.graphBuffers.map memEx) 7 64) :=
  ⟨by decide, by decide, rfl, rfl, by decide, by decide,
   C8_graph_roundtrip stEx stEx 0 0 cOne cOne memEx [(1, 5), (2, 5)] 7 64
     (by decide) (by decide) rfl rfl (by decide) (by decide)⟩
